import Mathlib

/-!
Shallow embedding of the genetic-algorithm programs in the `sausheong/ga`
repository, together with proofs about them.

The repository contains several Go variants of the same generational GA:
* `src/monalisa/main.go` — pixel-buffer genomes, int64 pixel-distance fitness
  (lower is better), top-slice pool construction WITHOUT a degenerate escape;
* `src/unnamed/part_000` (triangles), `part_001`/`part_002` (circles) — same
  fitness and pool shape but WITH the degenerate-population escape hatch;
* `src/unnamed/part_003` — byte-string genomes, float64 normalized match
  fitness (higher is better), proportional-to-maximum pool construction.

Modelling conventions:
* Go `uint8` pixel/gene bytes become `Nat` values below 256; `uint64`
  arithmetic is `Nat` arithmetic with an explicit `% 2 ^ 64`; `int64` becomes
  `Int` (no operation in scope approaches the int64 range).
* Go `float64` fitness values become `ℚ`; every float expression in scope is
  a quotient/product of small integers where exact rational arithmetic agrees
  with the double computation in the reachable range.
* `int64(math.Sqrt(float64(d)))` is modelled by `Nat.sqrt d`: `float64(d)` is
  exact and `math.Sqrt` correctly rounded, and for `d < 2 ^ 52` (always the
  case for real image buffers) truncating the rounded square root equals the
  integer square root.
* The process-wide random source is made explicit: random draws, cut points
  and replacement elements are parameters of the embedded functions.
* Go panics (index out of range) are modelled by `Option`: `none` is a panic.
-/

namespace GA

namespace Image

/-- Organism from `src/monalisa/main.go` lines 172-176: a pixel-buffer genome
(`DNA`, the `Pix` byte slice of the `image.RGBA`) and its cached `int64`
fitness.  The triangle/circle variants add a shape list that the functions
embedded here never inspect, so this one structure serves all image variants. -/
structure Organism where
  DNA : List Nat
  Fitness : Int
deriving Repr, DecidableEq, Inhabited

/-- squareDifference from `src/monalisa/main.go` lines 107-111 (identical in
`part_000`/`part_001`/`part_002`): `d := uint64(x) - uint64(y); return d * d`,
with the wrapping unsigned subtraction and multiplication made explicit as
`% 2 ^ 64`.  Arguments are pixel bytes, hence below 256. -/
def squareDifference (x y : Nat) : Nat :=
  ((x + 2 ^ 64 - y) % 2 ^ 64) * ((x + 2 ^ 64 - y) % 2 ^ 64) % 2 ^ 64

/-- diff from `src/monalisa/main.go` lines 97-105: sum `squareDifference` over
all byte positions of the two buffers and take `int64(math.Sqrt(float64(d)))`,
modelled by `Nat.sqrt` (see the file comment).  The Go loop runs over the
indices of `a` and reads `b` at the same index, so equal length is a
precondition; `zipWith` realises exactly the equal-length reading. -/
def diff (a b : List Nat) : Nat :=
  Nat.sqrt (List.zipWith squareDifference a b).sum

/-- calcFitness from `src/monalisa/main.go` lines 188-196: compute the
difference, assign 1 when it is zero, then unconditionally overwrite the
fitness with the difference (the dead branch of the source is kept). -/
def calcFitness (o : Organism) (target : List Nat) : Organism :=
  let difference : Int := diff o.DNA target
  let o1 := if difference = 0 then { o with Fitness := 1 } else o
  { o1 with Fitness := difference }

/-- getBest from `src/monalisa/main.go` lines 159-170: fold the loop
`best := 0; index := 0; if population[i].Fitness > best then update` and
return `population[index]`; indexing an empty population panics (`none`). -/
def getBest (population : List Organism) : Option Organism :=
  let p := (List.range population.length).foldl
    (fun (acc : Int × Nat) i =>
      let o := population.getD i default
      if o.Fitness > acc.1 then (o.Fitness, i) else acc)
    ((0 : Int), (0 : Nat))
  population[p.2]?

/-- sortPopulation embeds the `sort.SliceStable(population, func(i, j int) bool
\x7b return population[i].Fitness < population[j].Fitness \x7d)` call at the top of
`createPool` (`src/monalisa/main.go` lines 118-120, `part_000` lines 117-119).
A stable sort with strict `<` on the key produces the non-decreasing stable
order, which is what insertion sort with `≤` on the key computes.  In Go the
sort happens in place, so after `createPool` returns, the caller's population
slice holds exactly this list. -/
def sortPopulation (population : List Organism) : List Organism :=
  List.insertionSort (fun a b => a.Fitness ≤ b.Fitness) population

/-- crossover from `src/monalisa/main.go` lines 198-219: child pixel `i` comes
from the first parent when `i > mid` and from the second parent otherwise; the
child buffer has the first parent's length and fitness 0.  The random cut
`mid := rand.Intn(len(d1.DNA.Pix))` is passed in explicitly. -/
def crossover (d1 d2 : Organism) (mid : Nat) : Organism :=
  { DNA := (List.range d1.DNA.length).map (fun i =>
      if i > mid then d1.DNA.getD i 0 else d2.DNA.getD i 0),
    Fitness := 0 }

/-- mutate from `src/monalisa/main.go` lines 221-228: for every position `i`,
when the `i`-th random draw (`rand.Float64()`, a value in `[0,1)`) is below
`MutationRate`, replace the byte with a fresh random byte.  Draws and fresh
bytes are explicit oracles. -/
def mutate (o : Organism) (rate : ℚ) (rands : Nat → ℚ) (fresh : Nat → Nat) : Organism :=
  { o with DNA := (List.range o.DNA.length).map (fun i =>
      if rands i < rate then fresh i else o.DNA.getD i 0) }

end Image

namespace Monalisa

/-- createPool from `src/monalisa/main.go` lines 113-130: sort the population
by fitness ascending, slice `top := population[0 : PoolSize+1]` (`none` when
that slice is out of range, i.e. `PoolSize + 1 > len(population)`), then for
each `i < len(top) - 1` append `(top[PoolSize].Fitness - top[i].Fitness) * 10`
copies of `top[i]`.  There is no degenerate-population escape in this
variant. -/
def createPool (poolSize : Nat) (population : List Image.Organism) :
    Option (List Image.Organism) :=
  if poolSize + 1 ≤ population.length then
    let sorted := Image.sortPopulation population
    let top := sorted.take (poolSize + 1)
    some ((List.range (top.length - 1)).flatMap (fun i =>
      let num : Int := ((top.getD poolSize default).Fitness - (top.getD i default).Fitness) * 10
      List.replicate num.toNat (top.getD i default)))
  else none

end Monalisa

namespace Triangles

/-- createPool from `src/unnamed/part_000` lines 112-133 (identical in
`part_001`/`part_002`): as in the monalisa variant but with the degenerate
escape — when `top[len(top)-1].Fitness - top[0].Fitness == 0` the pool is the
whole (sorted-in-place) population — and without the `* 10` scale. -/
def createPool (poolSize : Nat) (population : List Image.Organism) :
    Option (List Image.Organism) :=
  if poolSize + 1 ≤ population.length then
    let sorted := Image.sortPopulation population
    let top := sorted.take (poolSize + 1)
    if (top.getD (top.length - 1) default).Fitness - (top.getD 0 default).Fitness = 0 then
      some sorted
    else
      some ((List.range (top.length - 1)).flatMap (fun i =>
        let num : Int := (top.getD poolSize default).Fitness - (top.getD i default).Fitness
        List.replicate num.toNat (top.getD i default)))
  else none

end Triangles

namespace Shakespeare

/-- DNA from `src/unnamed/part_003` lines 97-101: a byte-string genome and its
cached `float64` fitness, the latter modelled by `ℚ`. -/
structure DNA where
  Gene : List Nat
  Fitness : ℚ
deriving Repr, DecidableEq, Inhabited

/-- score is the local accumulator of calcFitness in `src/unnamed/part_003`
lines 118-124: the number of positions where the gene byte equals the target
byte.  The Go loop runs over the gene's indices and reads the target at the
same index (equal length is a precondition), which `zipWith` realises. -/
def score (gene target : List Nat) : Nat :=
  (List.zipWith (fun a b => if a = b then 1 else 0) gene target).sum

/-- calcFitness from `src/unnamed/part_003` lines 117-127: fitness is the
match count divided by the gene length (`float64(score) / float64(len)`,
exact in ℚ for this range). -/
def calcFitness (d : DNA) (target : List Nat) : DNA :=
  { d with Fitness := (score d.Gene target : ℚ) / (d.Gene.length : ℚ) }

/-- intTrunc models Go's `int(x)` conversion on a non-negative-or-negative
rational: truncation toward zero (floor for non-negative values, ceiling for
negative ones). -/
def intTrunc (q : ℚ) : Int :=
  if 0 ≤ q then ⌊q⌋ else ⌈q⌉

/-- createPool from `src/unnamed/part_003` lines 43-55: for each organism in
order, recompute its fitness, then append
`int((population[i].Fitness / maxFitness) * 100)` copies of it to the pool
(a negative count appends nothing, as in the Go loop `for n := 0; n < num`). -/
def createPool : List DNA → List Nat → ℚ → List DNA
  | [], _, _ => []
  | d :: rest, target, maxFitness =>
    let d1 := calcFitness d target
    let num : Int := intTrunc (d1.Fitness / maxFitness * 100)
    List.replicate num.toNat d1 ++ createPool rest target maxFitness

/-- numCopies is the copy count of one organism in `createPool`: the truncated
scaled fitness ratio, clamped at zero exactly as the Go counting loop does. -/
def numCopies (d : DNA) (target : List Nat) (maxFitness : ℚ) : Nat :=
  (intTrunc ((calcFitness d target).Fitness / maxFitness * 100)).toNat

/-- crossover from `src/unnamed/part_003` lines 129-145: child byte `i` comes
from the first parent when `i > mid` and from the second parent otherwise; the
child has the first parent's length and fitness 0.  The random cut
`mid := rand.Intn(len(d1.Gene))` is passed in explicitly. -/
def crossover (d1 d2 : DNA) (mid : Nat) : DNA :=
  { Gene := (List.range d1.Gene.length).map (fun i =>
      if i > mid then d1.Gene.getD i 0 else d2.Gene.getD i 0),
    Fitness := 0 }

/-- mutate from `src/unnamed/part_003` lines 147-154: for every position `i`,
when the `i`-th random draw (`rand.Float64()`, a value in `[0,1)`) is below
`MutationRate`, replace the byte with a fresh random byte.  Draws and fresh
bytes are explicit oracles. -/
def mutate (d : DNA) (rate : ℚ) (rands : Nat → ℚ) (fresh : Nat → Nat) : DNA :=
  { d with Gene := (List.range d.Gene.length).map (fun i =>
      if rands i < rate then fresh i else d.Gene.getD i 0) }

end Shakespeare

/-- Totality of the fitness comparison used by `sortPopulation`. -/
instance : IsTotal Image.Organism (fun a b => a.Fitness ≤ b.Fitness) :=
  ⟨fun a b => le_total a.Fitness b.Fitness⟩

/-- Transitivity of the fitness comparison used by `sortPopulation`. -/
instance : IsTrans Image.Organism (fun a b => a.Fitness ≤ b.Fitness) :=
  ⟨fun _ _ _ hab hbc => le_trans hab hbc⟩

theorem getD_range_map {α : Type} (n : Nat) (f : Nat → α) {i : Nat} (hi : i < n) (d : α) :
    ((List.range n).map f).getD i d = f i := by
  have hlen : i < ((List.range n).map f).length := by
    simpa using hi
  rw [List.getD_eq_getElem _ _ hlen, List.getElem_map, List.getElem_range]

theorem range_map_getD {α : Type} (l : List α) (d : α) :
    (List.range l.length).map (fun i => l.getD i d) = l := by
  apply List.ext_getElem
  · simp
  · intro i h1 h2
    rw [List.getElem_map, List.getElem_range, List.getD_eq_getElem _ _ h2]

theorem wrap_sq (a : Nat) (h2 : a ≤ 255) :
    (2 ^ 64 - a) * (2 ^ 64 - a) % 2 ^ 64 = a * a := by
  have hle : a ≤ 2 ^ 64 := by omega
  have haa : (a : Int) * a < 2 ^ 64 := by
    have : (a : Int) * a ≤ 255 * 255 := by
      have h2i : (a : Int) ≤ 255 := by exact_mod_cast h2
      have h0 : (0 : Int) ≤ a := Int.natCast_nonneg a
      nlinarith
    linarith
  zify [hle]
  have hshape : ((2 : Int) ^ 64 - a) * ((2 : Int) ^ 64 - a)
      = (a : Int) * a + 2 ^ 64 * (2 ^ 64 - 2 * a) := by ring
  rw [hshape, Int.add_mul_emod_self_left]
  exact Int.emod_emod_of_dvd _ dvd_rfl ▸
    Int.emod_eq_of_lt (by positivity) haa

theorem squareDifference_eq_sq (x y : Nat) (hx : x < 256) (hy : y < 256) :
    Image.squareDifference x y = ((x : Int) - (y : Int)).natAbs ^ 2 := by
  unfold Image.squareDifference
  rcases le_or_lt y x with h | h
  · have h1 : (x + 2 ^ 64 - y) % 2 ^ 64 = x - y := by omega
    have h2 : (x - y) * (x - y) < 2 ^ 64 := by
      have hlt : x - y < 256 := by omega
      calc (x - y) * (x - y) ≤ 255 * 255 := Nat.mul_le_mul (by omega) (by omega)
        _ < 2 ^ 64 := by norm_num
    have h3 : ((x : Int) - (y : Int)).natAbs = x - y := by omega
    rw [h1, Nat.mod_eq_of_lt h2, h3, sq]
  · have h1 : (x + 2 ^ 64 - y) % 2 ^ 64 = 2 ^ 64 - (y - x) := by omega
    have h3 : ((x : Int) - (y : Int)).natAbs = y - x := by omega
    rw [h1, h3, sq]
    exact wrap_sq (y - x) (by omega)

theorem squareDifference_self (x : Nat) : Image.squareDifference x x = 0 := by
  unfold Image.squareDifference
  have h1 : (x + 2 ^ 64 - x) % 2 ^ 64 = 0 := by omega
  rw [h1]
  rfl

theorem zipWith_squareDifference_self (a : List Nat) :
    (List.zipWith Image.squareDifference a a).sum = 0 := by
  induction a with
  | nil => rfl
  | cons x xs ih => simp [squareDifference_self, ih]

theorem diff_self (a : List Nat) : Image.diff a a = 0 := by
  unfold Image.diff
  rw [zipWith_squareDifference_self]
  rfl

theorem sortPopulation_perm (population : List Image.Organism) :
    (Image.sortPopulation population).Perm population :=
  List.perm_insertionSort _ _

theorem sortPopulation_pairwise (population : List Image.Organism) :
    List.Pairwise (fun a b : Image.Organism => a.Fitness ≤ b.Fitness)
      (Image.sortPopulation population) :=
  List.sorted_insertionSort _ _

theorem score_le_length (g t : List Nat) : Shakespeare.score g t ≤ g.length := by
  induction g generalizing t with
  | nil => simp [Shakespeare.score]
  | cons a g ih =>
    cases t with
    | nil => simp [Shakespeare.score]
    | cons b t =>
      have hih : Shakespeare.score g t ≤ g.length := ih t
      simp only [Shakespeare.score, List.zipWith_cons_cons, List.sum_cons,
        List.length_cons] at hih ⊢
      split <;> omega

theorem score_self (t : List Nat) : Shakespeare.score t t = t.length := by
  induction t with
  | nil => rfl
  | cons a t ih => simp [Shakespeare.score, List.zipWith_cons_cons] at ih ⊢; omega

theorem shakespeare_mutate_zero (d : Shakespeare.DNA) (rands : Nat → ℚ) (fresh : Nat → Nat)
    (h : ∀ i, 0 ≤ rands i) : Shakespeare.mutate d 0 rands fresh = d := by
  unfold Shakespeare.mutate
  have hmap : (List.range d.Gene.length).map
      (fun i => if rands i < 0 then fresh i else d.Gene.getD i 0)
      = (List.range d.Gene.length).map (fun i => d.Gene.getD i 0) := by
    apply List.map_congr_left
    intro i _
    rw [if_neg (not_lt.mpr (h i))]
  rw [hmap, range_map_getD]

theorem image_mutate_zero (o : Image.Organism) (rands : Nat → ℚ) (fresh : Nat → Nat)
    (h : ∀ i, 0 ≤ rands i) : Image.mutate o 0 rands fresh = o := by
  unfold Image.mutate
  have hmap : (List.range o.DNA.length).map
      (fun i => if rands i < 0 then fresh i else o.DNA.getD i 0)
      = (List.range o.DNA.length).map (fun i => o.DNA.getD i 0) := by
    apply List.map_congr_left
    intro i _
    rw [if_neg (not_lt.mpr (h i))]
  rw [hmap, range_map_getD]

theorem zipWith_sq_congr (a b : List Nat) (ha : ∀ x ∈ a, x < 256) (hb : ∀ x ∈ b, x < 256) :
    List.zipWith Image.squareDifference a b
      = List.zipWith (fun (x y : Nat) => ((x : Int) - (y : Int)).natAbs ^ 2) a b := by
  induction a generalizing b with
  | nil => simp
  | cons x xs ih =>
    cases b with
    | nil => simp
    | cons y ys =>
      have hx : x < 256 := ha x (by simp)
      have hy : y < 256 := hb y (by simp)
      simp only [List.zipWith_cons_cons]
      rw [squareDifference_eq_sq x y hx hy,
        ih ys (fun z hz => ha z (List.mem_cons_of_mem x hz))
          (fun z hz => hb z (List.mem_cons_of_mem y hz))]

/-- C2: in the pixel-distance variants lower fitness is better, yet `getBest`
(initialising `best := 0` and updating on `Fitness > best`) picks the organism
with the MAXIMUM fitness: on a population with fitness 5 and 10 it returns the
fitness-10 organism, not the best (minimum-fitness) one, contradicting the
function's own "Get the best organism" documentation. -/
theorem getBest_returns_maximum_fitness :
    Image.getBest [⟨[0], 5⟩, ⟨[1], 10⟩] = some ⟨[1], 10⟩ ∧
    Image.getBest [⟨[0], 5⟩, ⟨[1], 10⟩] ≠ some ⟨[0], 5⟩ := by
  decide

/-- C3: the pixel-distance `calcFitness` always ends with `Fitness` equal to
`diff(DNA, target)` — the zero-difference branch that first assigns 1 is dead —
so an organism whose DNA equals the target byte-for-byte ends with fitness 0. -/
theorem calcFitness_eq_diff (o : Image.Organism) (target : List Nat) :
    (Image.calcFitness o target).Fitness = (Image.diff o.DNA target : Int) ∧
    (o.DNA = target → (Image.calcFitness o target).Fitness = 0) := by
  have h1 : (Image.calcFitness o target).Fitness = (Image.diff o.DNA target : Int) := rfl
  refine ⟨h1, fun h => ?_⟩
  rw [h1, h, diff_self]
  rfl

/-- C3 witness: the theorem applied to a concrete organism and target, with a
non-matching and a perfectly matching DNA. -/
theorem calcFitness_eq_diff_witness :
    (Image.calcFitness ⟨[1, 2], 99⟩ [3, 4]).Fitness = (Image.diff [1, 2] [3, 4] : Int) ∧
    (Image.calcFitness ⟨[3, 4], 99⟩ [3, 4]).Fitness = 0 :=
  ⟨(calcFitness_eq_diff ⟨[1, 2], 99⟩ [3, 4]).1,
   (calcFitness_eq_diff ⟨[3, 4], 99⟩ [3, 4]).2 rfl⟩

/-- C4: for equal-length byte buffers, `diff` is the integer square root of
the sum of squared per-byte differences; `squareDifference` equals the square
of the absolute difference despite wrapping unsigned subtraction; and
`diff(a, a) = 0`. -/
theorem diff_is_euclidean_norm (a b : List Nat) (hlen : a.length = b.length)
    (ha : ∀ x ∈ a, x < 256) (hb : ∀ x ∈ b, x < 256) :
    Image.diff a b
      = Nat.sqrt ((List.zipWith (fun (x y : Nat) => ((x : Int) - (y : Int)).natAbs ^ 2) a b).sum) ∧
    (∀ x y : Nat, x < 256 → y < 256 →
      Image.squareDifference x y = ((x : Int) - (y : Int)).natAbs ^ 2) ∧
    Image.diff a a = 0 := by
  refine ⟨?_, fun x y hx hy => squareDifference_eq_sq x y hx hy, diff_self a⟩
  unfold Image.diff
  rw [zipWith_sq_congr a b ha hb]

/-- C4 witness: the theorem applied to two concrete equal-length buffers. -/
theorem diff_is_euclidean_norm_witness :
    Image.diff [1, 255] [3, 0]
      = Nat.sqrt ((List.zipWith (fun (x y : Nat) => ((x : Int) - (y : Int)).natAbs ^ 2)
          [1, 255] [3, 0]).sum) ∧
    (∀ x y : Nat, x < 256 → y < 256 →
      Image.squareDifference x y = ((x : Int) - (y : Int)).natAbs ^ 2) ∧
    Image.diff [1, 255] [1, 255] = 0 :=
  diff_is_euclidean_norm [1, 255] [3, 0] rfl (by decide) (by decide)

/-- C5: the discrete-match `calcFitness` sets fitness to the number of
matching positions divided by the length, a value in `[0, 1]`, and a genome
equal to the target scores exactly 1. -/
theorem calcFitness_match_ratio (d : Shakespeare.DNA) (target : List Nat)
    (hlen : d.Gene.length = target.length) (hpos : 0 < d.Gene.length) :
    (Shakespeare.calcFitness d target).Fitness
      = (Shakespeare.score d.Gene target : ℚ) / (d.Gene.length : ℚ) ∧
    0 ≤ (Shakespeare.calcFitness d target).Fitness ∧
    (Shakespeare.calcFitness d target).Fitness ≤ 1 ∧
    (d.Gene = target → (Shakespeare.calcFitness d target).Fitness = 1) := by
  have hfit : (Shakespeare.calcFitness d target).Fitness
      = (Shakespeare.score d.Gene target : ℚ) / (d.Gene.length : ℚ) := rfl
  have hlenpos : (0 : ℚ) < (d.Gene.length : ℚ) := by exact_mod_cast hpos
  refine ⟨hfit, ?_, ?_, ?_⟩
  · rw [hfit]
    exact div_nonneg (Nat.cast_nonneg _) (Nat.cast_nonneg _)
  · rw [hfit, div_le_one hlenpos]
    exact_mod_cast score_le_length d.Gene target
  · intro hgt
    rw [hfit, hgt, score_self]
    have h0 : 0 < target.length := hlen ▸ hpos
    exact div_self (by exact_mod_cast h0.ne')

/-- C5 witness: the theorem applied to a concrete gene (2 of 3 bytes match)
and to the perfect-match case. -/
theorem calcFitness_match_ratio_witness :
    ((Shakespeare.calcFitness ⟨[1, 2, 3], 0⟩ [1, 9, 3]).Fitness
      = (Shakespeare.score [1, 2, 3] [1, 9, 3] : ℚ) / (([1, 2, 3] : List Nat).length : ℚ)) ∧
    (Shakespeare.calcFitness ⟨[1, 9, 3], 0⟩ [1, 9, 3]).Fitness = 1 :=
  ⟨(calcFitness_match_ratio ⟨[1, 2, 3], 0⟩ [1, 9, 3] rfl (by decide)).1,
   (calcFitness_match_ratio ⟨[1, 9, 3], 0⟩ [1, 9, 3] rfl (by decide)).2.2.2 rfl⟩

/-- C6: single-point crossover (both the byte-string and the pixel variant):
with cut index `mid` below the length, child positions `≤ mid` come from the
second parent, positions `> mid` from the first parent, and the child's genome
length equals both parents' length. -/
theorem crossover_single_point :
    (∀ (d1 d2 : Shakespeare.DNA) (mid : Nat), mid < d1.Gene.length →
      d1.Gene.length = d2.Gene.length →
      (Shakespeare.crossover d1 d2 mid).Gene.length = d1.Gene.length ∧
      (Shakespeare.crossover d1 d2 mid).Gene.length = d2.Gene.length ∧
      (∀ i, i < d1.Gene.length →
        (i ≤ mid → (Shakespeare.crossover d1 d2 mid).Gene.getD i 0 = d2.Gene.getD i 0) ∧
        (mid < i → (Shakespeare.crossover d1 d2 mid).Gene.getD i 0 = d1.Gene.getD i 0))) ∧
    (∀ (o1 o2 : Image.Organism) (mid : Nat), mid < o1.DNA.length →
      o1.DNA.length = o2.DNA.length →
      (Image.crossover o1 o2 mid).DNA.length = o1.DNA.length ∧
      (Image.crossover o1 o2 mid).DNA.length = o2.DNA.length ∧
      (∀ i, i < o1.DNA.length →
        (i ≤ mid → (Image.crossover o1 o2 mid).DNA.getD i 0 = o2.DNA.getD i 0) ∧
        (mid < i → (Image.crossover o1 o2 mid).DNA.getD i 0 = o1.DNA.getD i 0))) := by
  constructor
  · intro d1 d2 mid _ hlen
    have hcg : (Shakespeare.crossover d1 d2 mid).Gene
        = (List.range d1.Gene.length).map (fun i =>
            if i > mid then d1.Gene.getD i 0 else d2.Gene.getD i 0) := rfl
    refine ⟨by rw [hcg]; simp, by rw [hcg]; simp [hlen], fun i hi => ⟨fun hle => ?_, fun hgt => ?_⟩⟩
    · rw [hcg, getD_range_map _ _ hi, if_neg (by omega)]
    · rw [hcg, getD_range_map _ _ hi, if_pos hgt]
  · intro o1 o2 mid _ hlen
    have hcg : (Image.crossover o1 o2 mid).DNA
        = (List.range o1.DNA.length).map (fun i =>
            if i > mid then o1.DNA.getD i 0 else o2.DNA.getD i 0) := rfl
    refine ⟨by rw [hcg]; simp, by rw [hcg]; simp [hlen], fun i hi => ⟨fun hle => ?_, fun hgt => ?_⟩⟩
    · rw [hcg, getD_range_map _ _ hi, if_neg (by omega)]
    · rw [hcg, getD_range_map _ _ hi, if_pos hgt]

/-- C6 witness: both crossover variants applied at concrete parents and cut. -/
theorem crossover_single_point_witness :
    (Shakespeare.crossover ⟨[1, 2, 3, 4], 0⟩ ⟨[9, 8, 7, 6], 0⟩ 1).Gene.length
      = ([1, 2, 3, 4] : List Nat).length ∧
    (Image.crossover ⟨[1, 2, 3, 4], 0⟩ ⟨[9, 8, 7, 6], 0⟩ 1).DNA.length
      = ([1, 2, 3, 4] : List Nat).length :=
  ⟨(crossover_single_point.1 ⟨[1, 2, 3, 4], 0⟩ ⟨[9, 8, 7, 6], 0⟩ 1 (by decide) rfl).1,
   (crossover_single_point.2 ⟨[1, 2, 3, 4], 0⟩ ⟨[9, 8, 7, 6], 0⟩ 1 (by decide) rfl).1⟩

/-- C8: with mutation rate 0 and random draws in `[0, 1)`, `mutate` is the
identity, so crossover-then-mutate equals crossover alone (in both the
byte-string and the pixel variant). -/
theorem mutate_rate_zero_identity :
    (∀ (d : Shakespeare.DNA) (rands : Nat → ℚ) (fresh : Nat → Nat),
      (∀ i, 0 ≤ rands i) → Shakespeare.mutate d 0 rands fresh = d) ∧
    (∀ (d1 d2 : Shakespeare.DNA) (mid : Nat) (rands : Nat → ℚ) (fresh : Nat → Nat),
      (∀ i, 0 ≤ rands i) →
      Shakespeare.mutate (Shakespeare.crossover d1 d2 mid) 0 rands fresh
        = Shakespeare.crossover d1 d2 mid) ∧
    (∀ (o1 o2 : Image.Organism) (mid : Nat) (rands : Nat → ℚ) (fresh : Nat → Nat),
      (∀ i, 0 ≤ rands i) →
      Image.mutate (Image.crossover o1 o2 mid) 0 rands fresh
        = Image.crossover o1 o2 mid) :=
  ⟨fun d rands fresh h => shakespeare_mutate_zero d rands fresh h,
   fun _ _ _ rands fresh h => shakespeare_mutate_zero _ rands fresh h,
   fun _ _ _ rands fresh h => image_mutate_zero _ rands fresh h⟩

/-- C8 witness: rate-zero mutation applied at concrete genomes with the
constant-zero draw oracle. -/
theorem mutate_rate_zero_identity_witness :
    Shakespeare.mutate ⟨[1, 2, 3], 0⟩ 0 (fun _ => 0) (fun _ => 7) = ⟨[1, 2, 3], 0⟩ ∧
    Shakespeare.mutate (Shakespeare.crossover ⟨[1, 2], 0⟩ ⟨[9, 8], 0⟩ 0) 0
        (fun _ => 0) (fun _ => 7)
      = Shakespeare.crossover ⟨[1, 2], 0⟩ ⟨[9, 8], 0⟩ 0 :=
  ⟨mutate_rate_zero_identity.1 ⟨[1, 2, 3], 0⟩ (fun _ => 0) (fun _ => 7) (fun _ => le_refl 0),
   mutate_rate_zero_identity.2.1 ⟨[1, 2], 0⟩ ⟨[9, 8], 0⟩ 0 (fun _ => 0) (fun _ => 7)
     (fun _ => le_refl 0)⟩

theorem shakespeare_fitness_nonneg (d : Shakespeare.DNA) (target : List Nat) :
    0 ≤ (Shakespeare.calcFitness d target).Fitness :=
  div_nonneg (Nat.cast_nonneg _) (Nat.cast_nonneg _)

theorem intTrunc_of_nonneg (q : ℚ) (h : 0 ≤ q) : Shakespeare.intTrunc q = ⌊q⌋ :=
  if_pos h

theorem createPool_eq_flatMap (population : List Shakespeare.DNA) (target : List Nat)
    (maxFitness : ℚ) :
    Shakespeare.createPool population target maxFitness
      = population.flatMap (fun d =>
          List.replicate (Shakespeare.numCopies d target maxFitness)
            (Shakespeare.calcFitness d target)) := by
  induction population with
  | nil => rfl
  | cons d rest ih =>
    simp only [Shakespeare.createPool, Shakespeare.numCopies, List.flatMap_cons, ih]

/-- C7: under the proportional-to-maximum policy with positive `maxFitness`,
`createPool` inserts, for each organism in order, exactly
`floor((recomputed fitness / maxFitness) * 100)` copies of it, and a
zero-fitness organism contributes zero copies. -/
theorem createPool_proportional (population : List Shakespeare.DNA) (target : List Nat)
    (maxFitness : ℚ) (hmax : 0 < maxFitness) :
    Shakespeare.createPool population target maxFitness
      = population.flatMap (fun d =>
          List.replicate (Shakespeare.numCopies d target maxFitness)
            (Shakespeare.calcFitness d target)) ∧
    (∀ d : Shakespeare.DNA, (Shakespeare.numCopies d target maxFitness : Int)
        = ⌊(Shakespeare.calcFitness d target).Fitness / maxFitness * 100⌋) ∧
    (∀ d : Shakespeare.DNA, (Shakespeare.calcFitness d target).Fitness = 0 →
      Shakespeare.numCopies d target maxFitness = 0) := by
  refine ⟨createPool_eq_flatMap population target maxFitness, fun d => ?_, fun d h0 => ?_⟩
  · have hq : 0 ≤ (Shakespeare.calcFitness d target).Fitness / maxFitness * 100 :=
      mul_nonneg (div_nonneg (shakespeare_fitness_nonneg d target) hmax.le) (by norm_num)
    unfold Shakespeare.numCopies
    rw [intTrunc_of_nonneg _ hq, Int.toNat_of_nonneg (Int.floor_nonneg.mpr hq)]
  · unfold Shakespeare.numCopies
    rw [h0]
    norm_num [Shakespeare.intTrunc]

/-- C7 witness: the copy-count law at a concrete organism (fitness 1/2 of the
maximum, giving 50 copies) and the zero-fitness case. -/
theorem createPool_proportional_witness :
    (Shakespeare.numCopies ⟨[1, 2], 0⟩ [1, 4] 1 : Int)
      = ⌊(Shakespeare.calcFitness ⟨[1, 2], 0⟩ [1, 4]).Fitness / 1 * 100⌋ ∧
    Shakespeare.numCopies ⟨[3], 0⟩ [7] 1 = 0 :=
  ⟨(createPool_proportional [] [1, 4] 1 one_pos).2.1 ⟨[1, 2], 0⟩,
   (createPool_proportional [] [7] 1 one_pos).2.2 ⟨[3], 0⟩
     (by norm_num [Shakespeare.calcFitness, Shakespeare.score])⟩

/-- C9: both top-slice `createPool` variants succeed exactly when the sliced
prefix `population[0 : poolSize+1]` is in bounds: under
`0 < poolSize < len(population)` they return a pool (no out-of-range access),
and whenever `poolSize + 1 > len(population)` they panic (`none`). -/
theorem createPool_top_slice_bounds (poolSize : Nat) (population : List Image.Organism)
    (h1 : 0 < poolSize) (h2 : poolSize < population.length) :
    (∃ p, Monalisa.createPool poolSize population = some p) ∧
    (∃ p, Triangles.createPool poolSize population = some p) ∧
    (∀ (ps : Nat) (pop : List Image.Organism), pop.length < ps + 1 →
      Monalisa.createPool ps pop = none ∧ Triangles.createPool ps pop = none) := by
  refine ⟨?_, ?_, fun ps pop hlt => ⟨?_, ?_⟩⟩
  · unfold Monalisa.createPool
    rw [if_pos (by omega)]
    exact ⟨_, rfl⟩
  · unfold Triangles.createPool
    rw [if_pos (by omega)]
    dsimp only
    split
    · exact ⟨_, rfl⟩
    · exact ⟨_, rfl⟩
  · unfold Monalisa.createPool
    rw [if_neg (by omega)]
  · unfold Triangles.createPool
    rw [if_neg (by omega)]

/-- C9 witness: with population size 2 a pool size of 1 is in bounds for both
variants, and a pool size of 2 is an out-of-range panic. -/
theorem createPool_top_slice_bounds_witness :
    (∃ p, Monalisa.createPool 1 [⟨[0], 5⟩, ⟨[1], 3⟩] = some p) ∧
    Monalisa.createPool 2 [⟨[0], 5⟩, ⟨[1], 3⟩] = none :=
  ⟨(createPool_top_slice_bounds 1 [⟨[0], 5⟩, ⟨[1], 3⟩] (by decide) (by decide)).1,
   ((createPool_top_slice_bounds 1 [⟨[0], 5⟩, ⟨[1], 3⟩] (by decide) (by decide)).2.2
      2 [⟨[0], 5⟩, ⟨[1], 3⟩] (by decide)).1⟩

/-- C1 counterexample: the monalisa `createPool` has no degenerate escape, so
on a fully converged non-empty population of length `poolSize + 1 ≤ length`
(here 2 organisms of equal fitness, pool size 1) it returns the EMPTY pool,
not the whole population. -/
theorem monalisa_createPool_empty_on_converged :
    Monalisa.createPool 1 [⟨[0], 5⟩, ⟨[0], 5⟩] = some [] ∧
    ([⟨[0], 5⟩, ⟨[0], 5⟩] : List Image.Organism).length = 2 := by
  decide

/-- C1 (amended): the escape-hatch variant (`part_000`/`part_001`/`part_002`)
returns a non-empty pool for every population of length at least
`poolSize + 1`, and when the whole top slice has identical fitness it returns
the entire (sorted-in-place) population. -/
theorem escape_createPool_nonempty (poolSize : Nat) (population : List Image.Organism)
    (hlen : poolSize + 1 ≤ population.length) :
    ∃ pool, Triangles.createPool poolSize population = some pool ∧ pool ≠ [] ∧
      ((∀ o1 ∈ (Image.sortPopulation population).take (poolSize + 1),
        ∀ o2 ∈ (Image.sortPopulation population).take (poolSize + 1),
          o1.Fitness = o2.Fitness) →
        pool = Image.sortPopulation population) := by
  unfold Triangles.createPool
  rw [if_pos hlen]
  dsimp only
  set s := Image.sortPopulation population with hs
  set t := List.take (poolSize + 1) s with ht
  have hslen : s.length = population.length := (sortPopulation_perm population).length_eq
  have htoplen : t.length = poolSize + 1 := by
    rw [ht, List.length_take]
    omega
  have hne : s ≠ [] := by
    intro h
    rw [h] at hslen
    simp only [List.length_nil] at hslen
    omega
  by_cases hesc : (t.getD (t.length - 1) default).Fitness - (t.getD 0 default).Fitness = 0
  · rw [if_pos hesc]
    exact ⟨s, rfl, hne, fun _ => rfl⟩
  · rw [if_neg hesc]
    refine ⟨_, rfl, ?_, ?_⟩
    · have hps : 0 < poolSize := by
        rcases Nat.eq_zero_or_pos poolSize with h0 | h
        · exfalso
          apply hesc
          rw [h0] at htoplen
          rw [htoplen]
          simp
        · exact h
      have h0lt : 0 < t.length := by omega
      have hplt : poolSize < t.length := by omega
      have htpair : List.Pairwise (fun a b : Image.Organism => a.Fitness ≤ b.Fitness) t := by
        rw [ht, hs]
        exact List.Pairwise.sublist (List.take_sublist _ _) (sortPopulation_pairwise population)
      have hle : (t.getD 0 default).Fitness ≤ (t.getD poolSize default).Fitness := by
        rw [List.getD_eq_getElem t default h0lt, List.getD_eq_getElem t default hplt]
        exact List.pairwise_iff_getElem.mp htpair 0 poolSize h0lt hplt hps
      have hlast : t.length - 1 = poolSize := by omega
      have hnum : 0 < (t.getD poolSize default).Fitness - (t.getD 0 default).Fitness := by
        rw [hlast] at hesc
        omega
      apply List.ne_nil_of_mem (a := t.getD 0 default)
      apply List.mem_flatMap.mpr
      refine ⟨0, List.mem_range.mpr (by omega), ?_⟩
      dsimp only
      apply List.mem_replicate.mpr
      exact ⟨by omega, rfl⟩
    · intro hconv
      exfalso
      apply hesc
      have hmem1 : t.getD (t.length - 1) default ∈ t := by
        rw [List.getD_eq_getElem t default (by omega)]
        exact List.getElem_mem _
      have hmem0 : t.getD 0 default ∈ t := by
        rw [List.getD_eq_getElem t default (by omega)]
        exact List.getElem_mem _
      rw [hconv _ hmem1 _ hmem0]
      exact sub_self _

/-- C1 (amended) witness: the escape-hatch `createPool` at pool size 1 on a
concrete two-organism population. -/
theorem escape_createPool_nonempty_witness :
    ∃ pool, Triangles.createPool 1 [⟨[0], 5⟩, ⟨[1], 3⟩] = some pool ∧ pool ≠ [] ∧
      ((∀ o1 ∈ (Image.sortPopulation [⟨[0], 5⟩, ⟨[1], 3⟩]).take 2,
        ∀ o2 ∈ (Image.sortPopulation [⟨[0], 5⟩, ⟨[1], 3⟩]).take 2,
          o1.Fitness = o2.Fitness) →
        pool = Image.sortPopulation [⟨[0], 5⟩, ⟨[1], 3⟩]) :=
  escape_createPool_nonempty 1 [⟨[0], 5⟩, ⟨[1], 3⟩] (by decide)

/-- C10: the sort that `createPool` performs on the caller's population slice
(in place, in Go) yields a permutation of the population — every organism's
DNA and fitness unchanged, as a multiset — ordered by non-decreasing fitness. -/
theorem createPool_sorts_in_place (population : List Image.Organism) :
    (Image.sortPopulation population).Perm population ∧
    List.Pairwise (fun a b : Image.Organism => a.Fitness ≤ b.Fitness)
      (Image.sortPopulation population) :=
  ⟨sortPopulation_perm population, sortPopulation_pairwise population⟩

end GA
